import Mathlib

/-!
Verification of the `ProxyCounter` namespaced counter registry from
`src/redbot/core/utils/_internal_utils.py`.

The registry stores `Dict[str, Dict[str, int]]`: an insertion-ordered mapping
from namespace (cog qualified name) to a mapping from counter name to integer
value.  We embed Python dicts as association lists with no duplicate keys
(`dictSet` updates in place, inserting absent keys at the end, exactly the
CPython insertion-order semantics), Python runtime values of the relevant
types as `PyVal`, and each raised exception as an error constructor.  The
mutating methods of the class mutate `self.__counters` in place; we embed
them as state-passing functions whose error result carries the state at the
moment the exception is raised, so that "an error leaves the registry
unchanged" is a provable statement about the embedding rather than an
artifact of it.
-/

set_option autoImplicit false

/-- A Python runtime value of one of the types that can reach the registry
API: `str`, `int`, `bool` and `None`.  `bool` is kept separate from `int`
because the source validates with `type(x) is int`, which is `False` for
`bool` values. -/
inductive PyVal where
  | str : String → PyVal
  | int : Int → PyVal
  | bool : Bool → PyVal
  | none : PyVal
deriving DecidableEq

/-- `type(v) is str` -/
def PyVal.isStr : PyVal → Bool
  | .str _ => true
  | _ => false

/-- The underlying string of a `str` value (only used under an `isStr` guard). -/
def PyVal.asStr : PyVal → String
  | .str s => s
  | _ => ""

/-- Python truthiness (`if cog:`) for the embedded value types. -/
def PyVal.truthy : PyVal → Bool
  | .str s => !(s = "")
  | .int n => !(n = 0)
  | .bool b => b
  | .none => false

/-- The exception classes raised by the registry.  `typeError` plays the
spec's `InvalidArgument` (wrong type) role, `valueError` its invalid-value
role, `keyError` is the spec's `NotFound` and `runtimeError` the spec's
`PermissionDenied`. -/
inductive PyErr where
  | typeError
  | valueError
  | keyError
  | runtimeError
  | notImplementedError
deriving DecidableEq

instance exceptDecEq {ε α : Type} [DecidableEq ε] [DecidableEq α] :
    DecidableEq (Except ε α) := fun a b =>
  match a, b with
  | .error x, .error y => decidable_of_iff (x = y) (by simp)
  | .error _, .ok _ => Decidable.isFalse (by simp)
  | .ok _, .error _ => Decidable.isFalse (by simp)
  | .ok x, .ok y => decidable_of_iff (x = y) (by simp)

/-- `d[k]` as an option: first (only, keys are unique) binding of `k`. -/
def dictLookup {κ α : Type} [DecidableEq κ] : List (κ × α) → κ → Option α
  | [], _ => Option.none
  | (k, v) :: rest, key => if k = key then Option.some v else dictLookup rest key

/-- `k in d` -/
def dictMem {κ α : Type} [DecidableEq κ] (d : List (κ × α)) (k : κ) : Bool :=
  (dictLookup d k).isSome

/-- `d[k] = v`: replace in place when the key is present, append when absent
(CPython dict insertion order). -/
def dictSet {κ α : Type} [DecidableEq κ] : List (κ × α) → κ → α → List (κ × α)
  | [], k, v => [(k, v)]
  | (k0, v0) :: rest, k, v =>
    if k0 = k then (k, v) :: rest else (k0, v0) :: dictSet rest k v

/-- `del d[k]`: drop the (unique) binding of `k`. -/
def dictDel {κ α : Type} [DecidableEq κ] : List (κ × α) → κ → List (κ × α)
  | [], _ => []
  | (k0, v0) :: rest, k =>
    if k0 = k then rest else (k0, v0) :: dictDel rest k

/-- One namespace's counters: `Dict[str, int]`. -/
abbrev CounterSet := List (String × Int)

/-- The registry state `self.__counters : Dict[str, Dict[str, int]]`. -/
abbrev Counters := List (String × CounterSet)

instance countersDecEq : DecidableEq Counters := inferInstance

instance errStateDecEq : DecidableEq (PyErr × Counters) := inferInstance

instance walkTriplesDecEq : DecidableEq (List (String × String × Int)) := inferInstance

/-- `cs.startswith(p)` on explicit character lists. -/
def charsStartWith : List Char → List Char → Bool
  | _, [] => true
  | [], _ :: _ => false
  | c :: cs, p :: ps => c = p && charsStartWith cs ps

/-- `s.lower()`.  The source's `str.lower` is full Unicode; all namespace
strings the reserved check cares about are ASCII, and we use the ASCII
`Char.toLower`. -/
def pyLower (s : String) : String :=
  String.mk (s.data.map Char.toLower)

/-- `cog_qualified_name.lower().startswith("red_")`: the reserved-namespace
test. -/
def isReserved (s : String) : Bool :=
  charsStartWith (pyLower s).data ("red_".data)

/-- `self.__counters[ns]` where the namespace is known to be present
(defaults to the empty dict otherwise, a case never reached by the
operations below). -/
def getCS (d : Counters) (ns : String) : CounterSet :=
  match dictLookup d ns with
  | Option.some cs => cs
  | Option.none => []

/-- `self.__counters[ns][c]` where the pair is known to be present
(defaults to 0 otherwise, a case never reached by the operations below). -/
def getVal (d : Counters) (ns c : String) : Int :=
  match dictLookup (getCS d ns) c with
  | Option.some v => v
  | Option.none => 0

/-- `ProxyCounter.__contains__((ns, c))` after its own two string type
checks have passed (the mutating methods only call it with arguments they
just validated as `str`): namespace present and counter present in it. -/
def pyContainsB (d : Counters) (ns c : String) : Bool :=
  match dictLookup d ns with
  | Option.some cs => dictMem cs c
  | Option.none => false

/-- `ProxyCounter.contains_raw(ns, c)` / `__contains__` on arbitrary runtime
values (the `isinstance(cog, Cog)` branch is not modelled: our callers pass
plain values). -/
def contains_raw (d : Counters) (cog counter : PyVal) : Except PyErr Bool :=
  match counter with
  | .str c =>
    match cog with
    | .str ns => .ok (pyContainsB d ns c)
    | _ => .error .typeError
  | _ => .error .typeError

/-- `ProxyCounter.__getitem__((ns, c))`, the body of `get_raw`: counter type
check, namespace type check, then `KeyError` when the namespace or the
counter is missing, else the stored value. -/
def get_raw (d : Counters) (cog counter : PyVal) : Except PyErr Int :=
  match counter with
  | .str c =>
    match cog with
    | .str ns =>
      match dictLookup d ns with
      | Option.some cs =>
        match dictLookup cs c with
        | Option.some v => .ok v
        | Option.none => .error .keyError
      | Option.none => .error .keyError
    | _ => .error .typeError
  | _ => .error .typeError

/-- The registration loop of `register_counters_raw`: each counter absent
from the namespace's dict is initialised to 0, present ones are untouched. -/
def registerLoop : CounterSet → List String → CounterSet
  | cs, [] => cs
  | cs, c :: rest =>
    registerLoop (if dictMem cs c then cs else dictSet cs c 0) rest

/-- `ProxyCounter.register_counters_raw(cog_qualified_name, *counters)`:
type-check the namespace, type-check every counter name, reject the
reserved `red_` namespace, create the namespace if absent, then initialise
each absent counter to 0.  An error result carries the registry state at
the raise site. -/
def register_counters_raw (d : Counters) (name : PyVal) (counters : List PyVal) :
    Except (PyErr × Counters) Counters :=
  match name with
  | .str ns =>
    if counters.all PyVal.isStr then
      if isReserved ns then .error (.runtimeError, d)
      else
        let d1 := if dictMem d ns then d else dictSet d ns []
        .ok (dictSet d1 ns (registerLoop (getCS d1 ns) (counters.map PyVal.asStr)))
    else .error (.typeError, d)
  | _ => .error (.typeError, d)

/-- `ProxyCounter._register_core_counters_raw`: as `register_counters_raw`
but the namespace must match the reserved `red_` pattern. -/
def register_core_counters_raw (d : Counters) (name : PyVal) (counters : List PyVal) :
    Except (PyErr × Counters) Counters :=
  match name with
  | .str ns =>
    if counters.all PyVal.isStr then
      if !(isReserved ns) then .error (.runtimeError, d)
      else
        let d1 := if dictMem d ns then d else dictSet d ns []
        .ok (dictSet d1 ns (registerLoop (getCS d1 ns) (counters.map PyVal.asStr)))
    else .error (.typeError, d)
  | _ => .error (.typeError, d)

/-- `ProxyCounter.unregister_counter_raw(cog_qualified_name, counter)`:
type-check both arguments, raise `KeyError` when the pair is not registered,
raise `RuntimeError` on the reserved namespace, else delete the counter. -/
def unregister_counter_raw (d : Counters) (name counter : PyVal) :
    Except (PyErr × Counters) Counters :=
  match name with
  | .str ns =>
    match counter with
    | .str c =>
      if pyContainsB d ns c then
        if isReserved ns then .error (.runtimeError, d)
        else .ok (dictSet d ns (dictDel (getCS d ns) c))
      else .error (.keyError, d)
    | _ => .error (.typeError, d)
  | _ => .error (.typeError, d)

/-- `ProxyCounter.inc_raw(cog_qualified_name, counter, by)`: type-check the
namespace and the counter, raise `KeyError` when the pair is not registered,
raise `RuntimeError` on the reserved namespace, type-check `by` as an exact
`int`, reject a negative `by`, then add `by` to the stored value and return
the new value. -/
def inc_raw (d : Counters) (name counter by_ : PyVal) :
    Except (PyErr × Counters) (Counters × Int) :=
  match name with
  | .str ns =>
    match counter with
    | .str c =>
      if pyContainsB d ns c then
        if isReserved ns then .error (.runtimeError, d)
        else
          match by_ with
          | .int b =>
            if b < 0 then .error (.valueError, d)
            else
              let v := getVal d ns c + b
              .ok (dictSet d ns (dictSet (getCS d ns) c v), v)
          | _ => .error (.typeError, d)
      else .error (.keyError, d)
    | _ => .error (.typeError, d)
  | _ => .error (.typeError, d)

/-- `ProxyCounter._inc_core_raw`: as `inc_raw` but the namespace must match
the reserved `red_` pattern. -/
def inc_core_raw (d : Counters) (name counter by_ : PyVal) :
    Except (PyErr × Counters) (Counters × Int) :=
  match name with
  | .str ns =>
    match counter with
    | .str c =>
      if pyContainsB d ns c then
        if !(isReserved ns) then .error (.runtimeError, d)
        else
          match by_ with
          | .int b =>
            if b < 0 then .error (.valueError, d)
            else
              let v := getVal d ns c + b
              .ok (dictSet d ns (dictSet (getCS d ns) c v), v)
          | _ => .error (.typeError, d)
      else .error (.keyError, d)
    | _ => .error (.typeError, d)
  | _ => .error (.typeError, d)

/-- `ProxyCounter.__setitem__`: always raises `NotImplementedError` and
never touches the mapping. -/
def pySetItem (d : Counters) (keys : PyVal × PyVal) (value : PyVal) :
    Except (PyErr × Counters) Counters :=
  match keys, value with
  | _, _ => .error (.notImplementedError, d)

/-- `ProxyCounter.__delitem__`: always raises `NotImplementedError` and
never touches the mapping. -/
def pyDelItem (d : Counters) (keys : PyVal × PyVal) :
    Except (PyErr × Counters) Counters :=
  match keys with
  | _ => .error (.notImplementedError, d)

/-- All `(namespace, counter, value)` triples of the registry, namespaces
and counters in insertion order: the `else` branch of `walk_counters`. -/
def walkAll : Counters → List (String × String × Int)
  | [] => []
  | (ns, cs) :: rest => cs.map (fun q => (ns, q.1, q.2)) ++ walkAll rest

/-- `ProxyCounter.walk_counters(cog)` with the generator fully forced into a
list.  The source tests `if cog:` — Python truthiness, so `None` and the
empty string both take the walk-everything branch; a truthy non-`Cog`
argument is used as the namespace name after an exact `str` type check, and
an unknown namespace produces the empty sequence via a bare `return`. -/
def walk_counters (d : Counters) (cog : PyVal) :
    Except PyErr (List (String × String × Int)) :=
  if cog.truthy then
    match cog with
    | .str ns =>
      match dictLookup d ns with
      | Option.some cs => .ok (cs.map (fun q => (ns, q.1, q.2)))
      | Option.none => .ok []
    | _ => .error .typeError
  else
    .ok (walkAll d)

/-- `ProxyCounter.get_all` is `copy.deepcopy(self.__counters)`; on the pure
association-list view of the state the copied contents are the contents. -/
def get_all (d : Counters) : Counters := d

/-- Every stored value is non-negative. -/
def allNonneg (d : Counters) : Bool :=
  d.all (fun p => p.2.all (fun q => 0 ≤ q.2))

/-- Registry states reachable from the freshly constructed registry
(`__init__` sets `self.__counters = {}`) by any sequence of the mutating
operations, whether they succeed or raise. -/
inductive Reachable : Counters → Prop where
  | init : Reachable []
  | regOk {d d' : Counters} {n : PyVal} {cs : List PyVal} :
      Reachable d → register_counters_raw d n cs = .ok d' → Reachable d'
  | regErr {d d' : Counters} {n : PyVal} {cs : List PyVal} {e : PyErr} :
      Reachable d → register_counters_raw d n cs = .error (e, d') → Reachable d'
  | regCoreOk {d d' : Counters} {n : PyVal} {cs : List PyVal} :
      Reachable d → register_core_counters_raw d n cs = .ok d' → Reachable d'
  | regCoreErr {d d' : Counters} {n : PyVal} {cs : List PyVal} {e : PyErr} :
      Reachable d → register_core_counters_raw d n cs = .error (e, d') → Reachable d'
  | unregOk {d d' : Counters} {n c : PyVal} :
      Reachable d → unregister_counter_raw d n c = .ok d' → Reachable d'
  | unregErr {d d' : Counters} {n c : PyVal} {e : PyErr} :
      Reachable d → unregister_counter_raw d n c = .error (e, d') → Reachable d'
  | incOk {d d' : Counters} {n c b : PyVal} {v : Int} :
      Reachable d → inc_raw d n c b = .ok (d', v) → Reachable d'
  | incErr {d d' : Counters} {n c b : PyVal} {e : PyErr} :
      Reachable d → inc_raw d n c b = .error (e, d') → Reachable d'
  | incCoreOk {d d' : Counters} {n c b : PyVal} {v : Int} :
      Reachable d → inc_core_raw d n c b = .ok (d', v) → Reachable d'
  | incCoreErr {d d' : Counters} {n c b : PyVal} {e : PyErr} :
      Reachable d → inc_core_raw d n c b = .error (e, d') → Reachable d'
  | setErr {d d' : Counters} {ks : PyVal × PyVal} {v : PyVal} {e : PyErr} :
      Reachable d → pySetItem d ks v = .error (e, d') → Reachable d'
  | delErr {d d' : Counters} {ks : PyVal × PyVal} {e : PyErr} :
      Reachable d → pyDelItem d ks = .error (e, d') → Reachable d'

/-! ## Dictionary lemmas -/

theorem dictLookup_dictSet {κ α : Type} [DecidableEq κ] (d : List (κ × α)) (k k' : κ) (v : α) :
    dictLookup (dictSet d k v) k' = if k = k' then Option.some v else dictLookup d k' := by
  induction d with
  | nil => simp [dictSet, dictLookup]
  | cons p rest ih =>
    obtain ⟨k0, v0⟩ := p
    by_cases h0 : k0 = k
    · subst h0
      simp only [dictSet, if_pos rfl, dictLookup]
      by_cases h1 : k0 = k' <;> simp [h1]
    · simp only [dictSet, if_neg h0, dictLookup]
      by_cases h1 : k0 = k'
      · have h2 : ¬ k = k' := fun h => h0 (h1.trans h.symm)
        simp [h1, h2]
      · simp [h1, ih]

theorem mem_dictSet {κ α : Type} [DecidableEq κ] {d : List (κ × α)} {k : κ} {v : α}
    {p : κ × α} (h : p ∈ dictSet d k v) : p = (k, v) ∨ p ∈ d := by
  induction d with
  | nil =>
    simp [dictSet] at h
    exact Or.inl h
  | cons q rest ih =>
    obtain ⟨k0, v0⟩ := q
    by_cases h0 : k0 = k
    · simp [dictSet, h0] at h
      rcases h with h | h
      · exact Or.inl h
      · exact Or.inr (List.mem_cons_of_mem _ h)
    · simp [dictSet, h0] at h
      rcases h with h | h
      · exact Or.inr (by simp [h])
      · rcases ih h with h1 | h1
        · exact Or.inl h1
        · exact Or.inr (List.mem_cons_of_mem _ h1)

theorem mem_dictDel {κ α : Type} [DecidableEq κ] {d : List (κ × α)} {k : κ}
    {p : κ × α} (h : p ∈ dictDel d k) : p ∈ d := by
  induction d with
  | nil => simp [dictDel] at h
  | cons q rest ih =>
    obtain ⟨k0, v0⟩ := q
    by_cases h0 : k0 = k
    · simp [dictDel, h0] at h
      exact List.mem_cons_of_mem _ h
    · simp [dictDel, h0] at h
      rcases h with h | h
      · simp [h]
      · exact List.mem_cons_of_mem _ (ih h)

theorem dictLookup_mem {κ α : Type} [DecidableEq κ] {d : List (κ × α)} {k : κ} {v : α}
    (h : dictLookup d k = Option.some v) : (k, v) ∈ d := by
  induction d with
  | nil => simp [dictLookup] at h
  | cons q rest ih =>
    obtain ⟨k0, v0⟩ := q
    by_cases h0 : k0 = k
    · subst h0
      simp [dictLookup] at h
      simp [h]
    · simp [dictLookup, h0] at h
      exact List.mem_cons_of_mem _ (ih h)

/-! ## Registration-loop and registry lemmas -/

theorem registerLoop_lookup (l : List String) (cs : CounterSet) (c : String) :
    dictLookup (registerLoop cs l) c =
      match dictLookup cs c with
      | Option.some v => Option.some v
      | Option.none => if c ∈ l then Option.some 0 else Option.none := by
  induction l generalizing cs with
  | nil => cases h : dictLookup cs c <;> simp [registerLoop, h]
  | cons a rest ih =>
    show dictLookup (registerLoop (if dictMem cs a then cs else dictSet cs a 0) rest) c = _
    by_cases hm : dictMem cs a
    · rw [if_pos hm, ih]
      by_cases hac : a = c
      · subst hac
        rcases Option.isSome_iff_exists.mp hm with ⟨v, hv⟩
        simp [hv]
      · have hca : ¬ c = a := fun hh => hac hh.symm
        cases h : dictLookup cs c <;> simp [h, hca]
    · rw [if_neg hm, ih]
      by_cases hac : a = c
      · subst hac
        have hn : dictLookup cs a = Option.none := by
          cases h : dictLookup cs a
          · rfl
          · exact absurd (by simp [dictMem, h]) hm
        simp [dictLookup_dictSet, hn]
      · rw [dictLookup_dictSet]
        rw [if_neg hac]
        have hca : ¬ c = a := fun hh => hac hh.symm
        cases h : dictLookup cs c <;> simp [h, hca]

theorem mem_registerLoop {l : List String} {cs : CounterSet} {p : String × Int}
    (h : p ∈ registerLoop cs l) : p ∈ cs ∨ p.2 = 0 := by
  induction l generalizing cs with
  | nil => exact Or.inl h
  | cons a rest ih =>
    have h1 : p ∈ registerLoop (if dictMem cs a then cs else dictSet cs a 0) rest := h
    rcases ih h1 with h2 | h2
    · by_cases hm : dictMem cs a
      · rw [if_pos hm] at h2
        exact Or.inl h2
      · rw [if_neg hm] at h2
        rcases mem_dictSet h2 with h3 | h3
        · exact Or.inr (by simp [h3])
        · exact Or.inl h3
    · exact Or.inr h2

theorem pyContainsB_eq (d : Counters) (ns c : String) :
    pyContainsB d ns c = (dictLookup (getCS d ns) c).isSome := by
  unfold pyContainsB getCS dictMem
  cases h : dictLookup d ns <;> simp [dictLookup]

theorem getVal_lookup {d : Counters} {ns c : String} (h : pyContainsB d ns c = true) :
    dictLookup (getCS d ns) c = Option.some (getVal d ns c) := by
  rw [pyContainsB_eq] at h
  rcases Option.isSome_iff_exists.mp h with ⟨v, hv⟩
  unfold getVal
  simp [hv]

/-! ## Operation shape lemmas -/

theorem getCS_ensure (d : Counters) (ns : String) :
    getCS (if dictMem d ns then d else dictSet d ns []) ns = getCS d ns := by
  by_cases hm : dictMem d ns
  · rw [if_pos hm]
  · rw [if_neg hm]
    have h1 : dictLookup d ns = Option.none := by
      cases h : dictLookup d ns
      · rfl
      · exact absurd (by simp [dictMem, h]) hm
    unfold getCS
    rw [dictLookup_dictSet, if_pos rfl, h1]

theorem all_isStr_map_str (cs : List String) :
    (cs.map PyVal.str).all PyVal.isStr = true := by
  rw [List.all_eq_true]
  intro x hx
  rcases List.mem_map.mp hx with ⟨s, _, rfl⟩
  rfl

theorem map_asStr_map_str (cs : List String) :
    (cs.map PyVal.str).map PyVal.asStr = cs := by
  rw [List.map_map]
  have h : PyVal.asStr ∘ PyVal.str = id := funext fun s => rfl
  rw [h, List.map_id]

theorem register_counters_raw_ok (d : Counters) (ns : String) (cs : List String)
    (hres : isReserved ns = false) :
    register_counters_raw d (.str ns) (cs.map PyVal.str) =
      .ok (dictSet (if dictMem d ns then d else dictSet d ns []) ns
            (registerLoop (getCS d ns) cs)) := by
  simp only [register_counters_raw, all_isStr_map_str, if_true, hres, Bool.false_eq_true,
    if_false, map_asStr_map_str, getCS_ensure]

theorem unregister_counter_raw_ok (d : Counters) (ns c : String)
    (hreg : pyContainsB d ns c = true) (hres : isReserved ns = false) :
    unregister_counter_raw d (.str ns) (.str c) =
      .ok (dictSet d ns (dictDel (getCS d ns) c)) := by
  simp [unregister_counter_raw, hreg, hres]

theorem inc_raw_ok (d : Counters) (ns c : String) (b : Int)
    (hreg : pyContainsB d ns c = true) (hres : isReserved ns = false) (hb : 0 ≤ b) :
    inc_raw d (.str ns) (.str c) (.int b) =
      .ok (dictSet d ns (dictSet (getCS d ns) c (getVal d ns c + b)), getVal d ns c + b) := by
  have hb2 : ¬ b < 0 := not_lt.mpr hb
  simp [inc_raw, hreg, hres, hb2]

/-! ## Error-frame lemmas: a raising call reports the unchanged registry -/

theorem register_counters_raw_error {d : Counters} {n : PyVal} {cs : List PyVal}
    {e : PyErr} {d' : Counters}
    (h : register_counters_raw d n cs = .error (e, d')) : d' = d := by
  unfold register_counters_raw at h
  repeat' split at h
  all_goals first
  | (injection h with h1; injection h1 with h2 h3; exact h3.symm)
  | simp at h

theorem register_core_counters_raw_error {d : Counters} {n : PyVal} {cs : List PyVal}
    {e : PyErr} {d' : Counters}
    (h : register_core_counters_raw d n cs = .error (e, d')) : d' = d := by
  unfold register_core_counters_raw at h
  repeat' split at h
  all_goals first
  | (injection h with h1; injection h1 with h2 h3; exact h3.symm)
  | simp at h

theorem unregister_counter_raw_error {d : Counters} {n c : PyVal}
    {e : PyErr} {d' : Counters}
    (h : unregister_counter_raw d n c = .error (e, d')) : d' = d := by
  unfold unregister_counter_raw at h
  repeat' split at h
  all_goals first
  | (injection h with h1; injection h1 with h2 h3; exact h3.symm)
  | simp at h

theorem inc_raw_error {d : Counters} {n c b : PyVal} {e : PyErr} {d' : Counters}
    (h : inc_raw d n c b = .error (e, d')) : d' = d := by
  unfold inc_raw at h
  repeat' split at h
  all_goals first
  | (injection h with h1; injection h1 with h2 h3; exact h3.symm)
  | simp at h

theorem inc_core_raw_error {d : Counters} {n c b : PyVal} {e : PyErr} {d' : Counters}
    (h : inc_core_raw d n c b = .error (e, d')) : d' = d := by
  unfold inc_core_raw at h
  repeat' split at h
  all_goals first
  | (injection h with h1; injection h1 with h2 h3; exact h3.symm)
  | simp at h

/-! ## Non-negativity helpers -/

theorem allNonneg_iff (d : Counters) :
    allNonneg d = true ↔ ∀ p ∈ d, ∀ q ∈ p.2, 0 ≤ q.2 := by
  simp [allNonneg, List.all_eq_true]

theorem allNonneg_dictSet {d : Counters} {ns : String} {cs : CounterSet}
    (hd : allNonneg d = true) (hcs : ∀ q ∈ cs, 0 ≤ q.2) :
    allNonneg (dictSet d ns cs) = true := by
  rw [allNonneg_iff] at hd ⊢
  intro p hp
  rcases mem_dictSet hp with h | h
  · subst h
    exact hcs
  · exact hd p h

theorem getCS_nonneg {d : Counters} (hd : allNonneg d = true) (ns : String) :
    ∀ q ∈ getCS d ns, 0 ≤ q.2 := by
  intro q hq
  unfold getCS at hq
  cases h : dictLookup d ns with
  | none =>
    rw [h] at hq
    simp at hq
  | some cs =>
    rw [h] at hq
    exact (allNonneg_iff d).mp hd (ns, cs) (dictLookup_mem h) q hq

theorem getVal_nonneg {d : Counters} (hd : allNonneg d = true) (ns c : String) :
    0 ≤ getVal d ns c := by
  unfold getVal
  cases h : dictLookup (getCS d ns) c with
  | none => simp
  | some v => exact getCS_nonneg hd ns (c, v) (dictLookup_mem h)

theorem registerLoop_nonneg {d1 : Counters} (hd1 : allNonneg d1 = true)
    (ns : String) (l : List String) :
    ∀ q ∈ registerLoop (getCS d1 ns) l, 0 ≤ q.2 := by
  intro q hq
  rcases mem_registerLoop hq with h | h
  · exact getCS_nonneg hd1 ns q h
  · rw [h]

theorem allNonneg_ensure {d : Counters} (hd : allNonneg d = true) (ns : String) :
    allNonneg (dictSet d ns []) = true :=
  allNonneg_dictSet hd (by intro q hq; simp at hq)

theorem register_arm_nonneg {d1 : Counters} (hd1 : allNonneg d1 = true)
    (ns : String) (l : List String) :
    allNonneg (dictSet d1 ns (registerLoop (getCS d1 ns) l)) = true :=
  allNonneg_dictSet hd1 (registerLoop_nonneg hd1 ns l)

theorem register_counters_raw_nonneg {d d' : Counters} {n : PyVal} {cs : List PyVal}
    (hd : allNonneg d = true) (h : register_counters_raw d n cs = .ok d') :
    allNonneg d' = true := by
  unfold register_counters_raw at h
  repeat' split at h
  all_goals simp at h
  all_goals subst h
  · exact register_arm_nonneg hd _ _
  · exact register_arm_nonneg (allNonneg_ensure hd _) _ _

theorem register_core_counters_raw_nonneg {d d' : Counters} {n : PyVal} {cs : List PyVal}
    (hd : allNonneg d = true) (h : register_core_counters_raw d n cs = .ok d') :
    allNonneg d' = true := by
  unfold register_core_counters_raw at h
  repeat' split at h
  all_goals simp at h
  all_goals subst h
  · exact register_arm_nonneg hd _ _
  · exact register_arm_nonneg (allNonneg_ensure hd _) _ _

theorem unregister_counter_raw_nonneg {d d' : Counters} {n c : PyVal}
    (hd : allNonneg d = true) (h : unregister_counter_raw d n c = .ok d') :
    allNonneg d' = true := by
  unfold unregister_counter_raw at h
  repeat' split at h
  all_goals simp at h
  all_goals subst h
  exact allNonneg_dictSet hd (fun q hq => getCS_nonneg hd _ q (mem_dictDel hq))

theorem inc_arm_nonneg {d : Counters} (hd : allNonneg d = true)
    (ns c : String) {b : Int} (hb : 0 ≤ b) :
    allNonneg (dictSet d ns (dictSet (getCS d ns) c (getVal d ns c + b))) = true := by
  apply allNonneg_dictSet hd
  intro q hq
  rcases mem_dictSet hq with h | h
  · rw [h]
    exact add_nonneg (getVal_nonneg hd ns c) hb
  · exact getCS_nonneg hd ns q h

theorem inc_raw_nonneg {d d' : Counters} {n c b : PyVal} {v : Int}
    (hd : allNonneg d = true) (h : inc_raw d n c b = .ok (d', v)) :
    allNonneg d' = true := by
  unfold inc_raw at h
  repeat' split at h
  all_goals simp at h
  all_goals obtain ⟨h1, h2⟩ := h
  all_goals subst h1
  all_goals rename_i hb
  all_goals exact inc_arm_nonneg hd _ _ (not_lt.mp hb)

theorem inc_core_raw_nonneg {d d' : Counters} {n c b : PyVal} {v : Int}
    (hd : allNonneg d = true) (h : inc_core_raw d n c b = .ok (d', v)) :
    allNonneg d' = true := by
  unfold inc_core_raw at h
  repeat' split at h
  all_goals simp at h
  all_goals obtain ⟨h1, h2⟩ := h
  all_goals subst h1
  all_goals rename_i hb
  all_goals exact inc_arm_nonneg hd _ _ (not_lt.mp hb)

/-! ## Walk lemmas -/

theorem walkAll_keys {d : Counters} {t : String × String × Int} (ht : t ∈ walkAll d) :
    t.1 ∈ d.map Prod.fst := by
  induction d with
  | nil => simp [walkAll] at ht
  | cons p rest ih =>
    obtain ⟨ns, cs⟩ := p
    simp only [walkAll, List.mem_append] at ht
    rcases ht with ht | ht
    · rcases List.mem_map.mp ht with ⟨q, _, rfl⟩
      simp
    · simp [ih ht]

theorem walk_triples_eq_filter (d : Counters) (hnd : (d.map Prod.fst).Nodup) (ns : String) :
    (match dictLookup d ns with
     | Option.some cs => cs.map (fun q => (ns, q.1, q.2))
     | Option.none => []) = (walkAll d).filter (fun t => t.1 == ns) := by
  induction d with
  | nil => simp [dictLookup, walkAll]
  | cons p rest ih =>
    obtain ⟨k, cs⟩ := p
    have hk : k ∉ rest.map Prod.fst := (List.nodup_cons.mp hnd).1
    have hnd2 : (rest.map Prod.fst).Nodup := (List.nodup_cons.mp hnd).2
    by_cases hkns : k = ns
    · subst hkns
      have h1 : (cs.map (fun q => (k, q.1, q.2))).filter (fun t => t.1 == k) =
          cs.map (fun q => (k, q.1, q.2)) := by
        apply List.filter_eq_self.mpr
        intro t ht
        rcases List.mem_map.mp ht with ⟨q, _, rfl⟩
        simp
      have h2 : (walkAll rest).filter (fun t => t.1 == k) = [] := by
        apply List.filter_eq_nil_iff.mpr
        intro t ht
        have := walkAll_keys ht
        intro hb
        exact hk (by rwa [← eq_of_beq hb])
      simp [dictLookup, walkAll, List.filter_append, h1, h2]
    · have h1 : (cs.map (fun q => (k, q.1, q.2))).filter (fun t => t.1 == ns) = [] := by
        apply List.filter_eq_nil_iff.mpr
        intro t ht
        rcases List.mem_map.mp ht with ⟨q, _, rfl⟩
        simp [hkns]
      have h3 := ih hnd2
      simp [dictLookup, hkns, walkAll, List.filter_append, h1, h3]

/-- C8 counterexample: the namespace `""` is a legal, registrable namespace
string, but `walk_counters` tests it with Python truthiness (`if cog:`), so
it falls into the walk-everything branch and yields another namespace's
triples instead of the (empty) set of its own. -/
theorem c8_counterexample :
    walk_counters [("x", [("c", 5)])] (PyVal.str "") = .ok [("x", "c", 5)] ∧
    walk_counters [("x", [("c", 5)])] (PyVal.str "") ≠ .ok [] := by
  exact ⟨rfl, by decide⟩

/-- C8 (amended): for every NON-EMPTY namespace string, `walk_counters`
yields exactly the triples of that namespace (the empty sequence, not an
error, when the namespace is unknown), and with no namespace given
(`None` — or, by truthiness, the empty string) it yields every triple of
every namespace. -/
theorem c8_walk_counters_spec (d : Counters) (ns : String)
    (hnd : (d.map Prod.fst).Nodup) (hns : ns ≠ "") :
    walk_counters d (.str ns) = .ok ((walkAll d).filter (fun t => t.1 == ns)) ∧
    walk_counters d PyVal.none = .ok (walkAll d) := by
  constructor
  · have ht : (PyVal.str ns).truthy = true := by simp [PyVal.truthy, hns]
    have heq := walk_triples_eq_filter d hnd ns
    cases hl : dictLookup d ns with
    | some cs =>
      rw [hl] at heq
      simp only at heq
      simp only [walk_counters, ht, if_true, hl]
      rw [Except.ok.injEq]
      exact heq
    | none =>
      rw [hl] at heq
      simp only at heq
      simp only [walk_counters, ht, if_true, hl]
      rw [Except.ok.injEq]
      exact heq
  · rfl

/-- C8 witness: the amended theorem applied to a concrete two-namespace
registry. -/
theorem c8_walk_counters_spec_witness :
    walk_counters [("x", [("c", 5)]), ("y", [("e", 7)])] (PyVal.str "y") =
      .ok ((walkAll [("x", [("c", 5)]), ("y", [("e", 7)])]).filter (fun t => t.1 == "y")) ∧
    walk_counters [("x", [("c", 5)]), ("y", [("e", 7)])] PyVal.none =
      .ok (walkAll [("x", [("c", 5)]), ("y", [("e", 7)])]) :=
  c8_walk_counters_spec [("x", [("c", 5)]), ("y", [("e", 7)])] "y" (by decide) (by decide)

/-! ## Post-state getter lemmas -/

theorem getCS_dictSet (d : Counters) (ns : String) (cs : CounterSet) :
    getCS (dictSet d ns cs) ns = cs := by
  unfold getCS
  rw [dictLookup_dictSet, if_pos rfl]

theorem getVal_after_set (d : Counters) (ns c : String) (v : Int) :
    getVal (dictSet d ns (dictSet (getCS d ns) c v)) ns c = v := by
  unfold getVal
  rw [getCS_dictSet, dictLookup_dictSet, if_pos rfl]

theorem pyContainsB_after_set (d : Counters) (ns c : String) (v : Int) :
    pyContainsB (dictSet d ns (dictSet (getCS d ns) c v)) ns c = true := by
  rw [pyContainsB_eq, getCS_dictSet, dictLookup_dictSet, if_pos rfl]
  rfl

/-! ## Claims -/

/-- C1 counterexample: on the empty registry (where the pair is not
registered), `inc_raw` on the reserved namespace `red_api` raises
`KeyError`, not the claimed `RuntimeError`: the registration check runs
before the reserved-namespace check. -/
theorem c1_counterexample :
    inc_raw [] (PyVal.str "red_api") (PyVal.str "c") (PyVal.int 1) =
      .error (.keyError, []) ∧
    inc_raw [] (PyVal.str "red_api") (PyVal.str "c") (PyVal.int 1) ≠
      .error (.runtimeError, []) := by
  exact ⟨rfl, by decide⟩

/-- C1 (amended): with string arguments, `register_counters_raw` on a
reserved-prefix namespace always raises `RuntimeError` (`PermissionDenied`);
`unregister_counter_raw` and `inc_raw` raise `RuntimeError` when the pair is
registered, but `KeyError` (`NotFound`) — not `RuntimeError` — when it is
not, because their registration check precedes the reserved-namespace
check. -/
theorem c1_reserved_rejections (d : Counters) (ns : String) (cs : List String) (c : String)
    (hres : isReserved ns = true) :
    register_counters_raw d (.str ns) (cs.map PyVal.str) = .error (.runtimeError, d) ∧
    (pyContainsB d ns c = true →
      unregister_counter_raw d (.str ns) (.str c) = .error (.runtimeError, d) ∧
      ∀ b : PyVal, inc_raw d (.str ns) (.str c) b = .error (.runtimeError, d)) ∧
    (pyContainsB d ns c = false →
      unregister_counter_raw d (.str ns) (.str c) = .error (.keyError, d) ∧
      ∀ b : PyVal, inc_raw d (.str ns) (.str c) b = .error (.keyError, d)) := by
  refine ⟨?_, fun hreg => ⟨?_, fun b => ?_⟩, fun hreg => ⟨?_, fun b => ?_⟩⟩
  · simp [register_counters_raw, all_isStr_map_str, hres]
  · simp [unregister_counter_raw, hreg, hres]
  · simp [inc_raw, hreg, hres]
  · simp [unregister_counter_raw, hreg]
  · simp [inc_raw, hreg]

/-- C1 witness: the amended theorem applied to a registry where the
privileged path has registered `("red_core", "x")`. -/
theorem c1_reserved_rejections_witness :
    register_counters_raw [("red_core", [("x", 0)])] (PyVal.str "red_core")
        (["y"].map PyVal.str) = .error (.runtimeError, [("red_core", [("x", 0)])]) ∧
    inc_raw [("red_core", [("x", 0)])] (PyVal.str "red_core") (PyVal.str "x") (PyVal.int 5) =
      .error (.runtimeError, [("red_core", [("x", 0)])]) := by
  obtain ⟨h1, h2, h3⟩ :=
    c1_reserved_rejections [("red_core", [("x", 0)])] "red_core" ["y"] "x" (by decide)
  exact ⟨h1, (h2 (by decide)).2 (PyVal.int 5)⟩

/-- C2 counterexample: `inc_raw` with an unregistered pair and the non-`int`
value `None` for `by` raises `KeyError` from the registration check, where
the claimed order (type-check `by` before registration/permission checks)
would require `TypeError`. -/
theorem c2_counterexample :
    inc_raw [] (PyVal.str "a") (PyVal.str "c") PyVal.none = .error (.keyError, []) ∧
    inc_raw [] (PyVal.str "a") (PyVal.str "c") PyVal.none ≠ .error (.typeError, []) := by
  exact ⟨rfl, by decide⟩

/-- C2 (amended): every mutating operation that raises reports the registry
unchanged (no partial mutation), and the actual validation order of
`inc_raw` is: namespace type, counter type, registration check, reserved-
namespace check, and only then the type and sign of `by` — so an
unregistered pair yields `KeyError` and a registered reserved pair yields
`RuntimeError` whatever `by` is. -/
theorem c2_validation_order (d : Counters) (n c b : PyVal) (cs : List PyVal)
    (e : PyErr) (d' : Counters) (ns cc : String) :
    (register_counters_raw d n cs = .error (e, d') → d' = d) ∧
    (unregister_counter_raw d n c = .error (e, d') → d' = d) ∧
    (inc_raw d n c b = .error (e, d') → d' = d) ∧
    (pyContainsB d ns cc = false →
      inc_raw d (.str ns) (.str cc) b = .error (.keyError, d)) ∧
    (pyContainsB d ns cc = true → isReserved ns = true →
      inc_raw d (.str ns) (.str cc) b = .error (.runtimeError, d)) := by
  refine ⟨fun h => register_counters_raw_error h,
    fun h => unregister_counter_raw_error h,
    fun h => inc_raw_error h,
    fun hreg => ?_, fun hreg hres => ?_⟩
  · simp [inc_raw, hreg]
  · simp [inc_raw, hreg, hres]

/-- C2 witness: the amended theorem applied at a concrete input: an
unregistered pair with a non-integer `by` raises `KeyError` with the
registry unchanged. -/
theorem c2_validation_order_witness :
    inc_raw [] (PyVal.str "a") (PyVal.str "c") (PyVal.bool true) =
      .error (.keyError, []) :=
  (c2_validation_order [] (PyVal.str "a") (PyVal.str "c") (PyVal.bool true) []
    PyErr.keyError [] "a" "c").2.2.2.1 (by decide)

/-- C3: on a registered, non-reserved pair, `inc_raw` with non-negative
integer `by` returns the previous value plus `by`, stores that sum, and
keeps the pair registered — so repeated increments accumulate. -/
theorem c3_inc_returns_sum (d : Counters) (ns c : String) (b : Int)
    (hreg : pyContainsB d ns c = true) (hres : isReserved ns = false) (hb : 0 ≤ b) :
    ∃ d', inc_raw d (.str ns) (.str c) (.int b) = .ok (d', getVal d ns c + b) ∧
      getVal d' ns c = getVal d ns c + b ∧
      pyContainsB d' ns c = true := by
  exact ⟨_, inc_raw_ok d ns c b hreg hres hb, getVal_after_set d ns c _,
    pyContainsB_after_set d ns c _⟩

/-- C3 witness: the theorem applied to a fresh counter at value 0 with an
increment of 1. -/
theorem c3_inc_returns_sum_witness :
    (0 : Int) ≤ 1 ∧
    ∃ d', inc_raw [("a", [("c", 0)])] (PyVal.str "a") (PyVal.str "c") (PyVal.int 1) =
        .ok (d', getVal [("a", [("c", 0)])] "a" "c" + 1) ∧
      getVal d' "a" "c" = getVal [("a", [("c", 0)])] "a" "c" + 1 ∧
      pyContainsB d' "a" "c" = true :=
  ⟨by decide,
    c3_inc_returns_sum [("a", [("c", 0)])] "a" "c" 1 (by decide) (by decide) (by decide)⟩

/-- C4: on a non-reserved namespace, `register_counters_raw` succeeds, a
counter that was absent is initialised to 0 (a subsequent `get_raw` returns
0), and a counter that was already registered keeps its prior value:
re-registering is a no-op, not an error. -/
theorem c4_register_initializes (d : Counters) (ns : String) (cs : List String)
    (hres : isReserved ns = false) :
    ∃ d', register_counters_raw d (.str ns) (cs.map PyVal.str) = .ok d' ∧
      ∀ c ∈ cs,
        (pyContainsB d ns c = true →
          get_raw d' (.str ns) (.str c) = .ok (getVal d ns c)) ∧
        (pyContainsB d ns c = false →
          get_raw d' (.str ns) (.str c) = .ok 0) := by
  refine ⟨_, register_counters_raw_ok d ns cs hres, ?_⟩
  intro c hc
  have hlook : dictLookup (dictSet (if dictMem d ns then d else dictSet d ns []) ns
      (registerLoop (getCS d ns) cs)) ns = Option.some (registerLoop (getCS d ns) cs) := by
    rw [dictLookup_dictSet, if_pos rfl]
  constructor
  · intro hreg
    have hv := getVal_lookup hreg
    simp [get_raw, hlook, registerLoop_lookup, hv]
  · intro hreg
    have hv : dictLookup (getCS d ns) c = Option.none := by
      rw [pyContainsB_eq] at hreg
      cases hcc : dictLookup (getCS d ns) c
      · rfl
      · rw [hcc] at hreg
        simp at hreg
    simp [get_raw, hlook, registerLoop_lookup, hv, hc]

/-- C4 witness: the theorem applied to a registry where `("a", "c")` already
holds 7: registering `["c", "x"]` again leaves `c` at 7 and initialises `x`
to 0. -/
theorem c4_register_initializes_witness :
    isReserved "a" = false ∧
    ∃ d', register_counters_raw [("a", [("c", 7)])] (PyVal.str "a")
        (["c", "x"].map PyVal.str) = .ok d' ∧
      ∀ c ∈ ["c", "x"],
        (pyContainsB [("a", [("c", 7)])] "a" c = true →
          get_raw d' (PyVal.str "a") (PyVal.str c) = .ok (getVal [("a", [("c", 7)])] "a" c)) ∧
        (pyContainsB [("a", [("c", 7)])] "a" c = false →
          get_raw d' (PyVal.str "a") (PyVal.str c) = .ok 0) :=
  ⟨by decide, c4_register_initializes [("a", [("c", 7)])] "a" ["c", "x"] (by decide)⟩

/-- C5: on a pair that is not registered, `get_raw`, `unregister_counter_raw`
and `inc_raw` (whatever `by` is) all raise `KeyError` (`NotFound`), and the
raising calls leave the registry unchanged. -/
theorem c5_not_found (d : Counters) (ns c : String) (h : pyContainsB d ns c = false) :
    get_raw d (.str ns) (.str c) = .error .keyError ∧
    unregister_counter_raw d (.str ns) (.str c) = .error (.keyError, d) ∧
    ∀ b : PyVal, inc_raw d (.str ns) (.str c) b = .error (.keyError, d) := by
  refine ⟨?_, by simp [unregister_counter_raw, h], fun b => by simp [inc_raw, h]⟩
  rw [pyContainsB_eq] at h
  cases hl : dictLookup d ns with
  | none => simp [get_raw, hl]
  | some cs =>
    have hc : dictLookup cs c = Option.none := by
      unfold getCS at h
      rw [hl] at h
      cases hcc : dictLookup cs c
      · rfl
      · rw [hcc] at h
        simp at h
    simp [get_raw, hl, hc]

/-- C5 witness: the theorem applied to the empty registry. -/
theorem c5_not_found_witness :
    get_raw [] (PyVal.str "a") (PyVal.str "c") = .error .keyError ∧
    unregister_counter_raw [] (PyVal.str "a") (PyVal.str "c") = .error (.keyError, []) ∧
    inc_raw [] (PyVal.str "a") (PyVal.str "c") (PyVal.int 1) = .error (.keyError, []) := by
  obtain ⟨h1, h2, h3⟩ := c5_not_found [] "a" "c" (by decide)
  exact ⟨h1, h2, h3 (PyVal.int 1)⟩

/-- C6: on a registered, non-reserved pair, `inc_raw` with a negative
integer `by` raises `ValueError` (`InvalidArgument`) and with a non-integer
`by` raises `TypeError`; in both cases the reported registry state is the
unchanged input state, so the counter value is untouched. -/
theorem c6_invalid_by (d : Counters) (ns c : String)
    (hreg : pyContainsB d ns c = true) (hres : isReserved ns = false) :
    (∀ b : Int, b < 0 → inc_raw d (.str ns) (.str c) (.int b) = .error (.valueError, d)) ∧
    (∀ v : PyVal, (∀ b : Int, v ≠ .int b) →
      inc_raw d (.str ns) (.str c) v = .error (.typeError, d)) := by
  constructor
  · intro b hb
    simp [inc_raw, hreg, hres, hb]
  · intro v hv
    cases v with
    | int b => exact absurd rfl (hv b)
    | str s => simp [inc_raw, hreg, hres]
    | bool b => simp [inc_raw, hreg, hres]
    | none => simp [inc_raw, hreg, hres]

/-- C6 witness: the theorem applied at `by = -1` and at the non-integer
`by = True` on a counter holding 3; both errors report the unchanged
registry. -/
theorem c6_invalid_by_witness :
    inc_raw [("a", [("c", 3)])] (PyVal.str "a") (PyVal.str "c") (PyVal.int (-1)) =
      .error (.valueError, [("a", [("c", 3)])]) ∧
    inc_raw [("a", [("c", 3)])] (PyVal.str "a") (PyVal.str "c") (PyVal.bool true) =
      .error (.typeError, [("a", [("c", 3)])]) := by
  obtain ⟨h1, h2⟩ := c6_invalid_by [("a", [("c", 3)])] "a" "c" (by decide) (by decide)
  exact ⟨h1 (-1) (by decide), h2 (PyVal.bool true) (fun b h => PyVal.noConfusion h)⟩

/-- C9: every registry state reachable from the fresh empty registry by any
sequence of the mutating operations (successful or raising, public or
privileged; `__setitem__` and `__delitem__` always raise and never mutate)
has only non-negative stored values: registration initialises to 0 and both
increment paths reject a negative delta before mutating. -/
theorem c9_values_nonneg {d : Counters} (h : Reachable d) : allNonneg d = true := by
  induction h with
  | init => rfl
  | regOk _ h => exact register_counters_raw_nonneg (by assumption) h
  | regErr _ h => rename_i ih; rwa [register_counters_raw_error h]
  | regCoreOk _ h => exact register_core_counters_raw_nonneg (by assumption) h
  | regCoreErr _ h => rename_i ih; rwa [register_core_counters_raw_error h]
  | unregOk _ h => exact unregister_counter_raw_nonneg (by assumption) h
  | unregErr _ h => rename_i ih; rwa [unregister_counter_raw_error h]
  | incOk _ h => exact inc_raw_nonneg (by assumption) h
  | incErr _ h => rename_i ih; rwa [inc_raw_error h]
  | incCoreOk _ h => exact inc_core_raw_nonneg (by assumption) h
  | incCoreErr _ h => rename_i ih; rwa [inc_core_raw_error h]
  | setErr _ h =>
    rename_i ih
    injection h with h1
    injection h1 with h2 h3
    rwa [← h3]
  | delErr _ h =>
    rename_i ih
    injection h with h1
    injection h1 with h2 h3
    rwa [← h3]

/-- C9 witness: the invariant theorem applied to the state reached by a
registration followed by an increment of 2. -/
theorem c9_values_nonneg_witness : allNonneg [("a", [("c", 2)])] = true := by
  apply c9_values_nonneg
  have h0 : Reachable ([] : Counters) := Reachable.init
  have h1 : Reachable [("a", [("c", 0)])] :=
    Reachable.regOk h0 (show register_counters_raw [] (PyVal.str "a") [PyVal.str "c"] =
      .ok [("a", [("c", 0)])] from rfl)
  exact Reachable.incOk h1 (show inc_raw [("a", [("c", 0)])] (PyVal.str "a") (PyVal.str "c")
      (PyVal.int 2) = .ok ([("a", [("c", 2)])], 2) from rfl)

/-! ## Heap model for `get_all` (C7)

`ProxyCounter.get_all` is `return copy.deepcopy(self.__counters)`.  The
property of interest — mutating the returned structure never changes what
the registry reads — is about object identity, so this section embeds the
relevant slice of the Python heap: inner `Dict[str, int]` objects live in a
`store` keyed by address, the registry's outer dict maps namespace to the
address of its inner dict, and `next` is the allocator.  `deepcopyOuter`
is `copy.deepcopy`: it allocates a fresh inner object per namespace and
returns a new outer mapping to the fresh addresses. -/

abbrev Addr := Nat

/-- Dereference an inner-dict address in the store. -/
def storeGet (store : List (Addr × CounterSet)) (a : Addr) : CounterSet :=
  match dictLookup store a with
  | Option.some cs => cs
  | Option.none => []

/-- A registry read (`get_raw` on the happy path) through the heap. -/
def getRawH (outer : List (String × Addr)) (store : List (Addr × CounterSet))
    (ns c : String) : Option Int :=
  match dictLookup outer ns with
  | Option.some a => dictLookup (storeGet store a) c
  | Option.none => Option.none

/-- `copy.deepcopy` of the outer dict: a fresh inner-dict object is
allocated for every namespace; returns the copied outer dict, the grown
store and the advanced allocator. -/
def deepcopyOuter : List (String × Addr) → List (Addr × CounterSet) → Addr →
    List (String × Addr) × List (Addr × CounterSet) × Addr
  | [], store, nxt => ([], store, nxt)
  | (ns, a) :: rest, store, nxt =>
    let res := deepcopyOuter rest ((nxt, storeGet store a) :: store) (nxt + 1)
    ((ns, nxt) :: res.1, res.2)

/-- `ProxyCounter.get_all` in the heap model. -/
def get_all_heap (outer : List (String × Addr)) (store : List (Addr × CounterSet))
    (nxt : Addr) : List (String × Addr) × List (Addr × CounterSet) × Addr :=
  deepcopyOuter outer store nxt

/-- A caller mutating the structure `get_all` returned: `obj[c] = v` on the
inner-dict object at address `a`. -/
def mutateInner (store : List (Addr × CounterSet)) (a : Addr) (c : String) (v : Int) :
    List (Addr × CounterSet) :=
  dictSet store a (dictSet (storeGet store a) c v)

/-- Well-formed heap: every inner-dict address the registry holds was
allocated before `nxt`. -/
def wfHeap (outer : List (String × Addr)) (nxt : Addr) : Bool :=
  outer.all (fun p => p.2 < nxt)

theorem dictLookup_cons_ne {κ α : Type} [DecidableEq κ] (k0 : κ) (v0 : α)
    (rest : List (κ × α)) {k : κ} (h : k0 ≠ k) :
    dictLookup ((k0, v0) :: rest) k = dictLookup rest k := by
  show (if k0 = k then Option.some v0 else dictLookup rest k) = dictLookup rest k
  rw [if_neg h]

theorem deepcopyOuter_store_old (l : List (String × Addr)) :
    ∀ (store : List (Addr × CounterSet)) (nxt : Addr) {a : Addr}, a < nxt →
      dictLookup (deepcopyOuter l store nxt).2.1 a = dictLookup store a := by
  induction l with
  | nil =>
    intro store nxt a ha
    rfl
  | cons q rest ih =>
    intro store nxt a ha
    obtain ⟨ns, a0⟩ := q
    simp only [deepcopyOuter]
    rw [ih _ _ (Nat.lt_succ_of_lt ha)]
    exact dictLookup_cons_ne _ _ _ (Nat.ne_of_gt ha)

theorem deepcopyOuter_fresh (l : List (String × Addr)) :
    ∀ (store : List (Addr × CounterSet)) (nxt : Addr) (p : String × Addr),
      p ∈ (deepcopyOuter l store nxt).1 → nxt ≤ p.2 := by
  induction l with
  | nil =>
    intro store nxt p hp
    simp [deepcopyOuter] at hp
  | cons q rest ih =>
    intro store nxt p hp
    obtain ⟨ns, a0⟩ := q
    simp only [deepcopyOuter, List.mem_cons] at hp
    rcases hp with hp | hp
    · subst hp
      exact Nat.le_refl _
    · exact le_trans (Nat.le_succ _) (ih _ _ _ hp)

theorem deepcopyOuter_snapshot (l : List (String × Addr)) :
    ∀ (store : List (Addr × CounterSet)) (nxt : Addr),
      (∀ p ∈ l, p.2 < nxt) → ∀ ns c,
      getRawH (deepcopyOuter l store nxt).1 (deepcopyOuter l store nxt).2.1 ns c =
        getRawH l store ns c := by
  induction l with
  | nil =>
    intro store nxt hl ns c
    rfl
  | cons q rest ih =>
    intro store nxt hl ns c
    obtain ⟨ns0, a0⟩ := q
    have h1 : storeGet (deepcopyOuter rest ((nxt, storeGet store a0) :: store)
        (nxt + 1)).2.1 nxt = storeGet store a0 := by
      generalize storeGet store a0 = cs0
      show (match dictLookup (deepcopyOuter rest ((nxt, cs0) :: store) (nxt + 1)).2.1 nxt with
        | Option.some cs => cs
        | Option.none => []) = cs0
      rw [deepcopyOuter_store_old rest _ _ (Nat.lt_succ_self _)]
      show (match (if (nxt : Addr) = nxt then Option.some cs0 else dictLookup store nxt) with
        | Option.some cs => cs
        | Option.none => []) = cs0
      rw [if_pos rfl]
    by_cases hns : ns0 = ns
    · subst hns
      show (match dictLookup ((ns0, nxt) :: (deepcopyOuter rest ((nxt, storeGet store a0)
          :: store) (nxt + 1)).1) ns0 with
        | Option.some a =>
          dictLookup (storeGet (deepcopyOuter rest ((nxt, storeGet store a0) :: store)
            (nxt + 1)).2.1 a) c
        | Option.none => Option.none) =
        (match dictLookup ((ns0, a0) :: rest) ns0 with
        | Option.some a => dictLookup (storeGet store a) c
        | Option.none => Option.none)
      show (match (if ns0 = ns0 then Option.some nxt else dictLookup (deepcopyOuter rest
          ((nxt, storeGet store a0) :: store) (nxt + 1)).1 ns0) with
        | Option.some a =>
          dictLookup (storeGet (deepcopyOuter rest ((nxt, storeGet store a0) :: store)
            (nxt + 1)).2.1 a) c
        | Option.none => Option.none) =
        (match (if ns0 = ns0 then Option.some a0 else dictLookup rest ns0) with
        | Option.some a => dictLookup (storeGet store a) c
        | Option.none => Option.none)
      rw [if_pos rfl, if_pos rfl]
      show dictLookup (storeGet (deepcopyOuter rest ((nxt, storeGet store a0) :: store)
          (nxt + 1)).2.1 nxt) c = dictLookup (storeGet store a0) c
      rw [h1]
    · have h2 := ih ((nxt, storeGet store a0) :: store) (nxt + 1)
        (fun p hp => Nat.lt_succ_of_lt (hl p (List.mem_cons_of_mem _ hp))) ns c
      have h3 : getRawH ((ns0, a0) :: rest) store ns c = getRawH rest store ns c := by
        unfold getRawH
        rw [dictLookup_cons_ne _ _ _ hns]
      have h4 : getRawH (deepcopyOuter ((ns0, a0) :: rest) store nxt).1
          (deepcopyOuter ((ns0, a0) :: rest) store nxt).2.1 ns c =
          getRawH (deepcopyOuter rest ((nxt, storeGet store a0) :: store) (nxt + 1)).1
            (deepcopyOuter rest ((nxt, storeGet store a0) :: store) (nxt + 1)).2.1 ns c := by
        show getRawH ((ns0, nxt) :: (deepcopyOuter rest ((nxt, storeGet store a0) :: store)
            (nxt + 1)).1)
          (deepcopyOuter rest ((nxt, storeGet store a0) :: store) (nxt + 1)).2.1 ns c = _
        unfold getRawH
        rw [dictLookup_cons_ne _ _ _ hns]
      rw [h4, h2, h3]
      unfold getRawH
      cases hr : dictLookup rest ns with
      | none => rfl
      | some a =>
        have ha : a < nxt := hl (ns, a) (List.mem_cons_of_mem _ (dictLookup_mem hr))
        have h5 : storeGet ((nxt, storeGet store a0) :: store) a = storeGet store a := by
          generalize storeGet store a0 = cs0
          unfold storeGet
          rw [dictLookup_cons_ne _ _ _ (Nat.ne_of_gt ha)]
        show dictLookup (storeGet ((nxt, storeGet store a0) :: store) a) c =
          dictLookup (storeGet store a) c
        rw [h5]

/-- C7: under a well-formed heap, `get_all` (deep copy) returns a structure
whose reads agree with the registry's current contents, and mutating any
inner-dict object of the returned structure leaves every subsequent
registry read (`get_raw`) unchanged: the copied addresses are fresh, so
they are disjoint from every address the registry holds. -/
theorem c7_get_all_deepcopy (outer : List (String × Addr))
    (store : List (Addr × CounterSet)) (nxt : Addr) (hwf : wfHeap outer nxt = true) :
    (∀ ns c, getRawH (get_all_heap outer store nxt).1 (get_all_heap outer store nxt).2.1 ns c =
        getRawH outer store ns c) ∧
    (∀ p ∈ (get_all_heap outer store nxt).1, ∀ c v ns cc,
      getRawH outer (mutateInner (get_all_heap outer store nxt).2.1 p.2 c v) ns cc =
        getRawH outer store ns cc) := by
  have hl : ∀ p ∈ outer, p.2 < nxt := by
    rw [wfHeap, List.all_eq_true] at hwf
    intro p hp
    simpa using hwf p hp
  constructor
  · exact deepcopyOuter_snapshot outer store nxt hl
  · intro p hp c v ns cc
    unfold getRawH
    cases ho : dictLookup outer ns with
    | none => rfl
    | some a =>
      have ha : a < nxt := hl (ns, a) (dictLookup_mem ho)
      have hfresh : nxt ≤ p.2 := deepcopyOuter_fresh outer store nxt p hp
      have hne : ¬ (p.2 = a) := fun h => absurd (h ▸ hfresh) (not_le.mpr ha)
      have h1 : dictLookup (mutateInner (get_all_heap outer store nxt).2.1 p.2 c v) a =
          dictLookup (get_all_heap outer store nxt).2.1 a := by
        unfold mutateInner
        rw [dictLookup_dictSet]
        rw [if_neg hne]
      have h2 : dictLookup (get_all_heap outer store nxt).2.1 a = dictLookup store a :=
        deepcopyOuter_store_old outer store nxt ha
      simp only
      unfold storeGet
      rw [h1, h2]

/-- C7 witness: the theorem applied to a one-namespace heap (`"a"` at
address 0 holding `c = 3`): the copy reads the same values, and writing 99
through the copy's fresh address (1) does not change the registry read. -/
theorem c7_get_all_deepcopy_witness :
    getRawH (get_all_heap [("a", 0)] [(0, [("c", 3)])] 1).1
        (get_all_heap [("a", 0)] [(0, [("c", 3)])] 1).2.1 "a" "c" =
      getRawH [("a", 0)] [(0, [("c", 3)])] "a" "c" ∧
    getRawH [("a", 0)]
        (mutateInner (get_all_heap [("a", 0)] [(0, [("c", 3)])] 1).2.1 ("a", 1).2 "c" 99)
        "a" "c" =
      getRawH [("a", 0)] [(0, [("c", 3)])] "a" "c" := by
  obtain ⟨h1, h2⟩ := c7_get_all_deepcopy [("a", 0)] [(0, [("c", 3)])] 1 (by decide)
  exact ⟨h1 "a" "c", h2 ("a", 1) (by decide) "c" 99 "a" "c"⟩
